import Mathlib

/-!
Verification of the diff-aware inline-suggestion pipeline of a Bitbucket
PR-review service.  The definitions below are a shallow embedding of the
TypeScript sources: `src/diffParser.ts` (unified-diff parser, line-number
formatter), `src/claude.ts` (suggestion validation in `runClaudeInline`),
`src/retry.ts` (`retryWithBackoff`, `isRetryableError`) and the inline
delivery loop of `src/server.ts`.  JavaScript strings are modelled as Lean
strings processed as character lists, JavaScript numbers appearing in
suggestions as `Int`, and thrown exceptions as `Except`.
-/

namespace PrAgent

/-- Model of JavaScript `s.split("\n")`: cut a character list at every
newline character, keeping empty segments. -/
def splitLinesAux : List Char → List Char → List String
  | [], acc => [String.mk acc.reverse]
  | c :: cs, acc =>
    if c = Char.ofNat 10 then String.mk acc.reverse :: splitLinesAux cs []
    else splitLinesAux cs (c :: acc)

/-- JavaScript `diffText.split("\n")`. -/
def splitLines (s : String) : List String := splitLinesAux s.toList []

/-- JavaScript `s.startsWith(p)`. -/
def strStarts (s p : String) : Bool := p.toList.isPrefixOf s.toList

/-- A diff content line counted as an addition:
`line.startsWith("+") && !line.startsWith("+++")`. -/
def isAddLine (l : String) : Bool := strStarts l "+" && !(strStarts l "+++")

/-- A diff content line counted as a deletion:
`line.startsWith("-") && !line.startsWith("---")`. -/
def isDelLine (l : String) : Bool := strStarts l "-" && !(strStarts l "---")

/-- Greedily take leading decimal digits, returning them and the rest,
modelling a greedy regex group of digit characters. -/
def takeDigits : List Char → List Char × List Char
  | [] => ([], [])
  | c :: cs =>
    if c.isDigit then
      ((c :: (takeDigits cs).1), (takeDigits cs).2)
    else ([], c :: cs)

/-- Numeric value of a digit string, modelling `parseInt(ds, 10)`. -/
def digitsToNat (ds : List Char) : Nat := ds.foldl (fun n c => n * 10 + (c.toNat - 48)) 0

/-- Model of the optional regex group matching a comma followed by one or
more digits.  Returns the digits when the group matches together with the
remaining input, and leaves the input untouched otherwise. -/
def matchCommaDigits : List Char → Option (List Char) × List Char
  | [] => (none, [])
  | c :: cs =>
    if c = Char.ofNat 44 then
      if (takeDigits cs).1.isEmpty then (none, c :: cs)
      else (some (takeDigits cs).1, (takeDigits cs).2)
    else (none, c :: cs)

/-- JavaScript whitespace test for the characters removed by `trim`
(space, tab, newline, carriage return, form feed, vertical tab). -/
def isWsChar (c : Char) : Bool :=
  c = Char.ofNat 32 || c = Char.ofNat 9 || c = Char.ofNat 10 ||
  c = Char.ofNat 13 || c = Char.ofNat 12 || c = Char.ofNat 11

/-- JavaScript `s.trim()`. -/
def trimStr (s : String) : String :=
  String.mk ((s.toList.dropWhile isWsChar).reverse.dropWhile isWsChar).reverse

/-- One hunk of a unified diff, mirroring interface `DiffHunk`. -/
structure DiffHunk where
  oldStart : Nat
  oldLines : Nat
  newStart : Nat
  newLines : Nat
  header : String
  lines : List String
deriving DecidableEq, Repr

/-- One changed file, mirroring interface `ParsedFile`. -/
structure ParsedFile where
  path : String
  hunks : List DiffHunk
  additions : Nat
  deletions : Nat
deriving DecidableEq, Repr

/-- The whole parsed diff, mirroring interface `ParsedDiff`. -/
structure ParsedDiff where
  files : List ParsedFile
  totalAdditions : Nat
  totalDeletions : Nat
deriving DecidableEq, Repr

/-- Attempt to match the hunk-header regular expression
`@@ -(\d+)(?:,(\d+))? \+(\d+)(?:,(\d+))? @@(.*)` at the start of the given
character list, producing a fresh hunk on success exactly as `parseDiff`
builds it (missing counts default to 1, trailing header text trimmed). -/
def matchHunkAt (cs : List Char) : Option DiffHunk :=
  if ("@@ -".toList).isPrefixOf cs then
    if (takeDigits (cs.drop 4)).1.isEmpty then none
    else
      if (" +".toList).isPrefixOf (matchCommaDigits (takeDigits (cs.drop 4)).2).2 then
        if (takeDigits ((matchCommaDigits (takeDigits (cs.drop 4)).2).2.drop 2)).1.isEmpty then none
        else
          if (" @@".toList).isPrefixOf (matchCommaDigits (takeDigits ((matchCommaDigits (takeDigits (cs.drop 4)).2).2.drop 2)).2).2 then
            some {
              oldStart := digitsToNat (takeDigits (cs.drop 4)).1,
              oldLines :=
                (match (matchCommaDigits (takeDigits (cs.drop 4)).2).1 with
                 | some ds => digitsToNat ds
                 | none => 1),
              newStart := digitsToNat (takeDigits ((matchCommaDigits (takeDigits (cs.drop 4)).2).2.drop 2)).1,
              newLines :=
                (match (matchCommaDigits (takeDigits ((matchCommaDigits (takeDigits (cs.drop 4)).2).2.drop 2)).2).1 with
                 | some ds => digitsToNat ds
                 | none => 1),
              header := trimStr (String.mk ((matchCommaDigits (takeDigits ((matchCommaDigits (takeDigits (cs.drop 4)).2).2.drop 2)).2).2.drop 3)),
              lines := [] }
          else none
      else none
  else none

/-- Scan every start position left to right, modelling the first-match
semantics of `line.match(...)` for the hunk-header pattern. -/
def findHunkMatch : List Char → Option DiffHunk
  | [] => none
  | c :: cs =>
    match matchHunkAt (c :: cs) with
    | some h => some h
    | none => findHunkMatch cs

/-- Result of `line.match` for the hunk header pattern on a whole line. -/
def matchHunkLine (line : String) : Option DiffHunk := findHunkMatch line.toList

/-- Lazy search for the literal ` b/` with at least one character after
it, modelling the `(.+?) b\/(.+)` tail of the file-header pattern: the
shortest non-empty prefix wins, and the second capture greedily takes the
rest of the line. -/
def pathSearch : List Char → Option String
  | [] => none
  | c :: t =>
    if (" b/".toList).isPrefixOf (c :: t) && !(((c :: t).drop 3).isEmpty) then
      some (String.mk ((c :: t).drop 3))
    else pathSearch t

/-- Attempt to match `diff --git a\/(.+?) b\/(.+)` at the start of the
given character list, returning the second capture. -/
def matchGitAt (cs : List Char) : Option String :=
  if ("diff --git a/".toList).isPrefixOf cs then
    match cs.drop 13 with
    | [] => none
    | _ :: rest => pathSearch rest
  else none

/-- Scan every start position, modelling unanchored `line.match`. -/
def findGitPath : List Char → Option String
  | [] => none
  | c :: cs =>
    match matchGitAt (c :: cs) with
    | some p => some p
    | none => findGitPath cs

/-- The path stored for a `diff --git` line: second capture of the file
header pattern, or the empty string when the pattern does not match. -/
def extractGitPath (line : String) : String :=
  match findGitPath line.toList with
  | some p => p
  | none => ""

/-- Mutable scanning state of `parseDiff`.  `pushedCount` records how many
times the object held in `currentHunk` has already been pushed into
`currentFile.hunks` by a hunk-header line whose regex failed: JavaScript
pushes the hunk by reference, keeps mutating it, and can push it again
later, so the final hunk list contains that many aliased copies. -/
structure PState where
  files : List ParsedFile
  totalAdditions : Nat
  totalDeletions : Nat
  currentFile : Option ParsedFile
  currentHunk : Option DiffHunk
  pushedCount : Nat

/-- Initial state of the `parseDiff` scan. -/
def initPState : PState :=
  { files := [], totalAdditions := 0, totalDeletions := 0,
    currentFile := none, currentHunk := none, pushedCount := 0 }

/-- Append the still-open hunk to the open file, materialising the
`pushedCount` aliased copies plus the final push. -/
def closeHunkInto (f : ParsedFile) (h : DiffHunk) (pushed : Nat) : ParsedFile :=
  { f with hunks := f.hunks ++ List.replicate (pushed + 1) h }

/-- One iteration of the `parseDiff` line loop. -/
def stepLine (st : PState) (line : String) : PState :=
  if strStarts line "diff --git" then
    match st.currentFile, st.currentHunk with
    | some f, some h =>
      { st with
        files := st.files ++ [closeHunkInto f h st.pushedCount],
        currentFile := some { path := extractGitPath line, hunks := [], additions := 0, deletions := 0 },
        currentHunk := none, pushedCount := 0 }
    | some f, none =>
      { st with
        files := st.files ++ [f],
        currentFile := some { path := extractGitPath line, hunks := [], additions := 0, deletions := 0 } }
    | none, _ =>
      { st with
        currentFile := some { path := extractGitPath line, hunks := [], additions := 0, deletions := 0 } }
  else if strStarts line "@@" then
    match matchHunkLine line with
    | some fresh =>
      match st.currentFile, st.currentHunk with
      | some f, some h =>
        { st with currentFile := some (closeHunkInto f h st.pushedCount),
                  currentHunk := some fresh, pushedCount := 0 }
      | _, _ => { st with currentHunk := some fresh, pushedCount := 0 }
    | none =>
      match st.currentFile, st.currentHunk with
      | some _, some _ => { st with pushedCount := st.pushedCount + 1 }
      | _, _ => st
  else
    match st.currentFile, st.currentHunk with
    | some f, some h =>
      if isAddLine line then
        { st with
          currentFile := some { f with additions := f.additions + 1 },
          currentHunk := some { h with lines := h.lines ++ [line] },
          totalAdditions := st.totalAdditions + 1 }
      else if isDelLine line then
        { st with
          currentFile := some { f with deletions := f.deletions + 1 },
          currentHunk := some { h with lines := h.lines ++ [line] },
          totalDeletions := st.totalDeletions + 1 }
      else
        { st with currentHunk := some { h with lines := h.lines ++ [line] } }
    | _, _ => st

/-- End-of-input flush of `parseDiff`: push the last open hunk and file. -/
def finishParse (st : PState) : ParsedDiff :=
  match st.currentFile, st.currentHunk with
  | some f, some h =>
    { files := st.files ++ [closeHunkInto f h st.pushedCount],
      totalAdditions := st.totalAdditions, totalDeletions := st.totalDeletions }
  | some f, none =>
    { files := st.files ++ [f],
      totalAdditions := st.totalAdditions, totalDeletions := st.totalDeletions }
  | none, _ =>
    { files := st.files,
      totalAdditions := st.totalAdditions, totalDeletions := st.totalDeletions }

/-- `parseDiff(diffText)` from `src/diffParser.ts`. -/
def parseDiff (diffText : String) : ParsedDiff :=
  finishParse ((splitLines diffText).foldl stepLine initPState)

/-- Inner loop of `getModifiedLineNumbers`: walk the hunk lines with the
destination line counter, recording the counter for added lines and
advancing it for every line that does not start with `-`. -/
def modLinesGo : List String → Nat → List Nat
  | [], _ => []
  | l :: ls, n =>
    if isAddLine l then n :: modLinesGo ls (n + 1)
    else if strStarts l "-" then modLinesGo ls n
    else modLinesGo ls (n + 1)

/-- Destination line numbers recorded for one hunk. -/
def hunkModifiedLines (h : DiffHunk) : List Nat := modLinesGo h.lines h.newStart

/-- `getModifiedLineNumbers(file)` from `src/diffParser.ts`. -/
def getModifiedLineNumbers (file : ParsedFile) : List Nat :=
  file.hunks.foldl (fun acc h => acc ++ hunkModifiedLines h) []

/-- Per-hunk line classification loop of `formatDiffWithLineNumbers`:
returns the `newContentLines` (destination number and raw content) and the
`oldContentLines` of one hunk, in order. -/
def hunkNewOldGo : List String → Nat → List (Nat × String) × List String
  | [], _ => ([], [])
  | l :: ls, n =>
    if isAddLine l then
      (((n, l) :: (hunkNewOldGo ls (n + 1)).1), (hunkNewOldGo ls (n + 1)).2)
    else if isDelLine l then
      ((hunkNewOldGo ls n).1, l :: (hunkNewOldGo ls n).2)
    else if !(strStarts l "---") && !(strStarts l "+++") then
      (((n, l) :: (hunkNewOldGo ls (n + 1)).1), l :: (hunkNewOldGo ls (n + 1)).2)
    else hunkNewOldGo ls n

/-- `newContentLines` and `oldContentLines` for a hunk. -/
def hunkNewOld (h : DiffHunk) : List (Nat × String) × List String :=
  hunkNewOldGo h.lines h.newStart

/-- `hasAdditions` test of the formatter. -/
def hunkHasAdditions (h : DiffHunk) : Bool :=
  (hunkNewOld h).1.any (fun p => strStarts p.2 "+")

/-- `hasDeletions` test of the formatter. -/
def hunkHasDeletions (h : DiffHunk) : Bool :=
  (hunkNewOld h).2.any (fun l => strStarts l "-")

/-- A hunk is rendered only when it has additions or deletions. -/
def emittedHunk (h : DiffHunk) : Bool := hunkHasAdditions h || hunkHasDeletions h

/-- The single-quote character, used when rendering file headers. -/
def squote : String := String.singleton (Char.ofNat 39)

/-- The rebuilt `@@ ... @@` header line of the formatter. -/
def formatHunkHeader (h : DiffHunk) : String :=
  "@@ -" ++ toString h.oldStart ++ "," ++ toString h.oldLines ++ " +" ++
    toString h.newStart ++ "," ++ toString h.newLines ++ " @@" ++
    (if h.header == "" then "" else " " ++ h.header)

/-- The output lines contributed by one hunk: header, `__new hunk__` block
with destination line numbers, and `__old hunk__` block when the hunk has
deletions; nothing for a hunk without additions or deletions. -/
def formatHunkSections (h : DiffHunk) : List String :=
  if emittedHunk h then
    ["\n" ++ formatHunkHeader h] ++
    ["__new hunk__"] ++
    (hunkNewOld h).1.map (fun p => toString p.1 ++ " " ++ p.2) ++
    (if hunkHasDeletions h then ["__old hunk__"] ++ (hunkNewOld h).2 else [])
  else []

/-- `formatDiffWithLineNumbers(diff)` from `src/diffParser.ts`. -/
def formatDiffWithLineNumbers (diff : String) : String :=
  trimStr (String.intercalate "\n"
    ((parseDiff diff).files.foldl
      (fun acc f =>
        acc ++ ["\n## File: " ++ squote ++ f.path ++ squote ++ "\n"] ++
          f.hunks.foldl (fun a h => a ++ formatHunkSections h) [])
      []))

/-- Destination line numbers annotated on every line of the `__new hunk__`
blocks the formatter renders for a file. -/
def newHunkAllNums (f : ParsedFile) : List Nat :=
  f.hunks.foldl
    (fun acc h => acc ++ (if emittedHunk h then (hunkNewOld h).1.map Prod.fst else [])) []

/-- Destination line numbers annotated on the added (`+`-prefixed) lines
of the `__new hunk__` blocks the formatter renders for a file. -/
def newHunkAddedNums (f : ParsedFile) : List Nat :=
  f.hunks.foldl
    (fun acc h =>
      acc ++ (if emittedHunk h then
                ((hunkNewOld h).1.filter (fun p => strStarts p.2 "+")).map Prod.fst
              else [])) []

/-- Membership of the `__old hunk__` block, characterised line by line:
deleted lines are kept, file-marker-shaped lines (`---`, `+++`) and added
lines are not, every other line is kept as context. -/
def oldLinePred (l : String) : Bool :=
  if isAddLine l then false
  else if isDelLine l then true
  else !(strStarts l "---") && !(strStarts l "+++")

/-- Number of added lines across all hunks of a file, counted on the raw
hunk content. -/
def countAddedLines (f : ParsedFile) : Nat :=
  (f.hunks.map (fun h => (h.lines.filter (fun l => isAddLine l)).length)).sum

/-- Number of non-deletion lines (added plus context) across all hunks of
a file, the quantity the specification compares against. -/
def nonDeletionLineCount (f : ParsedFile) : Nat :=
  (f.hunks.map (fun h =>
    (h.lines.filter (fun l => isAddLine l ||
      (!(strStarts l "+") && !(strStarts l "-")))).length)).sum

/-- JSON values as produced by `JSON.parse`: the candidate suggestions fed
to the validation loop of `runClaudeInline` are arbitrary such values. -/
inductive JVal where
  | jnull : JVal
  | jbool (b : Bool) : JVal
  | jnum (n : Int) : JVal
  | jstr (s : String) : JVal
  | jarr (elems : List JVal) : JVal
  | jobj (fields : List (String × JVal)) : JVal

/-- JavaScript `typeof` on a JSON value (`typeof null` is `"object"`). -/
def typeofJ : JVal → String
  | .jnull => "object"
  | .jbool _ => "boolean"
  | .jnum _ => "number"
  | .jstr _ => "string"
  | .jarr _ => "object"
  | .jobj _ => "object"

/-- Object-key lookup where a duplicated key keeps the last value, as in
the objects produced by `JSON.parse`. -/
def lookupLast : List (String × JVal) → String → Option JVal
  | [], _ => none
  | kv :: rest, key =>
    match lookupLast rest key with
    | some r => some r
    | none => if kv.1 == key then some kv.2 else none

/-- Property read `v.k`; `none` models the JavaScript value `undefined`. -/
def getFieldJ (v : JVal) (k : String) : Option JVal :=
  match v with
  | .jobj fs => lookupLast fs k
  | _ => none

/-- The field when it is present with string type. -/
def getStrField (v : JVal) (k : String) : Option String :=
  match getFieldJ v k with
  | some (.jstr s) => some s
  | _ => none

/-- The field when it is present with number type. -/
def getNumField (v : JVal) (k : String) : Option Int :=
  match getFieldJ v k with
  | some (.jnum n) => some n
  | _ => none

/-- `isValidSuggestion(obj)` from `src/claude.ts`.  The function first
tests `typeof obj === "object"`, which also holds for `null`; reading a
property of `null` then raises a `TypeError`, modelled by `.error ()`. -/
def isValidSuggestionE (v : JVal) : Except Unit Bool :=
  if typeofJ v != "object" then .ok false
  else
    match v with
    | .jnull => .error ()
    | _ => .ok (
        (getStrField v "relevant_file").isSome &&
        (getNumField v "relevant_lines_start").isSome &&
        (getNumField v "relevant_lines_end").isSome &&
        (getStrField v "suggestion_content").isSome &&
        (getStrField v "label").isSome &&
        (match getNumField v "score" with
         | some n => decide (1 ≤ n) && decide (n ≤ 10)
         | none => false))

/-- The typed view of a candidate used after validation, mirroring
interface `InlineSuggestion` (the optional code fields stay on the raw
value because `isValidSuggestion` never checks them). -/
structure InlineSuggestion where
  relevant_file : String
  relevant_lines_start : Int
  relevant_lines_end : Int
  suggestion_content : String
  label : String
  score : Int
deriving DecidableEq, Repr

/-- Extraction of the required typed fields of a candidate, defined
exactly when all six required fields are present with the right type. -/
def extractSuggestion (v : JVal) : Option InlineSuggestion :=
  match getStrField v "relevant_file", getNumField v "relevant_lines_start",
        getNumField v "relevant_lines_end", getStrField v "suggestion_content",
        getStrField v "label", getNumField v "score" with
  | some rf, some ls, some le, some sc, some lb, some n =>
    some { relevant_file := rf, relevant_lines_start := ls, relevant_lines_end := le,
           suggestion_content := sc, label := lb, score := n }
  | _, _, _, _, _, _ => none

/-- JavaScript truthiness of a possibly-absent value. -/
def truthyJ : Option JVal → Bool
  | none => false
  | some .jnull => false
  | some (.jbool b) => b
  | some (.jnum n) => decide (n ≠ 0)
  | some (.jstr s) => !(s == "")
  | some (.jarr _) => true
  | some (.jobj _) => true

/-- JavaScript `x.trim()` on a field value: succeeds on strings and raises
a `TypeError` on every other value. -/
def jTrim : JVal → Except Unit String
  | .jstr s => .ok (trimStr s)
  | _ => .error ()

/-- The emoji chosen for a label by `formatInlineComment` (unknown labels
fall back to the light bulb). -/
def labelEmoji (lb : String) : String :=
  if lb == "bug_risk" then "🐛"
  else if lb == "security" then "🔒"
  else if lb == "performance" then "⚡"
  else if lb == "code_smell" then "👃"
  else if lb == "best_practice" then "✨"
  else if lb == "todo_cleanup" then "🧹"
  else "💡"

/-- `label.replace(/_/g, " ").toUpperCase()`. -/
def labelDisplay (lb : String) : String :=
  String.mk (lb.toList.map (fun c => if c = Char.ofNat 95 then Char.ofNat 32 else c.toUpper))

/-- `s.repeat(n)` for a string. -/
def repeatStr (s : String) : Nat → String
  | 0 => ""
  | n + 1 => s ++ repeatStr s n

/-- `Math.min(Math.ceil(score / 2), 5)` for a validated integer score. -/
def starCount (score : Int) : Nat := min ((score + 1).toNat / 2) 5

/-- `formatInlineComment(suggestion)` from `src/claude.ts`.  The raw value
is consulted for the optional code fields: they are used when truthy, and
calling `.trim()` on a truthy non-string raises, which the model reports
as `.error ()`. -/
def formatInlineComment (v : JVal) (s : InlineSuggestion) : Except Unit String :=
  let base := labelEmoji s.label ++ " **" ++ labelDisplay s.label ++ "** " ++
    repeatStr "⭐" (starCount s.score) ++ "\n\n" ++ s.suggestion_content
  if truthyJ (getFieldJ v "existing_code") && truthyJ (getFieldJ v "improved_code") then
    match getFieldJ v "existing_code", getFieldJ v "improved_code" with
    | some e, some i =>
      match jTrim e, jTrim i with
      | .ok et, .ok it =>
        .ok (base ++ "\n\n**Existing code:**\n```\n" ++ et ++ "\n```" ++
             "\n\n**Suggested improvement:**\n```\n" ++ it ++ "\n```")
      | _, _ => .error ()
    | _, _ => .error ()
  else if truthyJ (getFieldJ v "improved_code") then
    match getFieldJ v "improved_code" with
    | some i =>
      match jTrim i with
      | .ok it => .ok (base ++ "\n\n**Suggested code:**\n```\n" ++ it ++ "\n```")
      | .error e => .error e
    | none => .error ()
  else .ok base

/-- A validated inline comment ready for delivery, mirroring
`type InlineItem = { path, to, message }`. -/
structure InlineItem where
  path : String
  «to» : Int
  message : String
deriving DecidableEq, Repr

/-- The per-file valid-line map of `runClaudeInline`: a `Map` keyed by
file path (a duplicated path keeps the last file) whose values are the
`getModifiedLineNumbers` sets. -/
def fileMapFind (files : List ParsedFile) (p : String) : Option (List Nat) :=
  match files.reverse.find? (fun f => f.path == p) with
  | some f => some (getModifiedLineNumbers f)
  | none => none

/-- The validation loop of `runClaudeInline`: for each candidate in order,
skip it unless it passes `isValidSuggestion`, has `score ≥ 6`, names a
file of the diff and targets a line in its valid-line set; a raised
`TypeError` aborts the whole loop. -/
def runValidateLoop (fm : String → Option (List Nat)) : List JVal → Except Unit (List InlineItem)
  | [] => .ok []
  | v :: rest =>
    match isValidSuggestionE v with
    | .error e => .error e
    | .ok false => runValidateLoop fm rest
    | .ok true =>
      match extractSuggestion v with
      | none => runValidateLoop fm rest
      | some s =>
        if s.score < 6 then runValidateLoop fm rest
        else
          match fm s.relevant_file with
          | none => runValidateLoop fm rest
          | some valid =>
            if decide (s.relevant_lines_end ∈ valid.map Int.ofNat) then
              match formatInlineComment v s with
              | .error e => .error e
              | .ok msg =>
                match runValidateLoop fm rest with
                | .error e => .error e
                | .ok items =>
                  .ok ({ path := s.relevant_file, «to» := s.relevant_lines_end, message := msg } :: items)
            else runValidateLoop fm rest

/-- `runClaudeInline` from `src/claude.ts`, modelled from the point where
the engine output has been passed through `JSON.parse`: a non-array yields
no items, otherwise the first 25 candidates are validated against the
parsed diff, and any raised error is caught and yields no items. -/
def runClaudeInline (parsedOut : JVal) (diff : String) : List InlineItem :=
  match parsedOut with
  | .jarr suggestions =>
    match runValidateLoop (fun p => fileMapFind (parseDiff diff).files p) (suggestions.take 25) with
    | .ok items => items
    | .error _ => []
  | _ => []

/-- A JavaScript error as inspected by `isRetryableError`: its message
string and the numeric status carried by `status` or `statusCode`. -/
structure JsErr where
  message : String
  status : Option Int
deriving DecidableEq, Repr

/-- Substring test on character lists. -/
def hasSub (pat : List Char) : List Char → Bool
  | [] => pat.isPrefixOf []
  | c :: cs => pat.isPrefixOf (c :: cs) || hasSub pat cs

/-- `message.includes(pat)` after lowercasing. -/
def msgIncludes (msg pat : String) : Bool :=
  hasSub pat.toList (msg.toList.map Char.toLower)

/-- `isRetryableError(error)` from `src/retry.ts`: transient network error
messages, or status 429, 502, 503, 504. -/
def isRetryableError (e : JsErr) : Bool :=
  msgIncludes e.message "econnreset" || msgIncludes e.message "enotfound" ||
  msgIncludes e.message "etimedout" ||
  (match e.status with
   | some s => decide (s = 429) || decide (s = 502) || decide (s = 503) || decide (s = 504)
   | none => false)

/-- Result of a retried operation: the value returned or the error
finally raised, together with the number of times the wrapped function
was invoked. -/
structure RetryResult (E T : Type) where
  result : Except E T
  attempts : Nat
deriving Repr

/-- The attempt loop of `retryWithBackoff`: `fuel` is the number of
retries still allowed, `attempt` the zero-based index of the current
attempt and `delay` the current backoff delay; after a retryable failure
the delay becomes `min (delay * mul) maxDelay`.  On a non-retryable error
the error is rethrown at once; when the retries are exhausted the last
error is rethrown. -/
def retryGo (retryable : E → Bool) (fn : Nat → Except E T) (mul maxDelay : Nat) :
    Nat → Nat → Nat → RetryResult E T
  | 0, attempt, _ =>
    match fn attempt with
    | .ok v => { result := .ok v, attempts := attempt + 1 }
    | .error e => { result := .error e, attempts := attempt + 1 }
  | fuel + 1, attempt, delay =>
    match fn attempt with
    | .ok v => { result := .ok v, attempts := attempt + 1 }
    | .error e =>
      if !(retryable e) then { result := .error e, attempts := attempt + 1 }
      else retryGo retryable fn mul maxDelay fuel (attempt + 1) (min (delay * mul) maxDelay)

/-- `retryWithBackoff(fn, options)` from `src/retry.ts`, with the wrapped
operation modelled as a function from the attempt index to its outcome.
The defaults of the source are `maxRetries = 3`, `initialDelay = 1000`,
`maxDelay = 10000`, `backoffMultiplier = 2`. -/
def retryWithBackoff (fn : Nat → Except E T) (maxRetries initialDelay maxDelay mul : Nat)
    (retryable : E → Bool) : RetryResult E T :=
  retryGo retryable fn mul maxDelay maxRetries 0 initialDelay

/-- Outcome recorded for one delivered inline item by the webhook handler:
`{path, to, id}` on success and `{path, to, error}` on failure. -/
inductive DeliveryOutcome where
  | success (path : String) (line : Int) (id : String) : DeliveryOutcome
  | failure (path : String) (line : Int) (error : String) : DeliveryOutcome
deriving DecidableEq, Repr

/-- The outcome recorded for one item given the result of its post. -/
def outcomeOf (r : Except String String) (it : InlineItem) : DeliveryOutcome :=
  match r with
  | .ok id => .success it.path it.«to» id
  | .error e => .failure it.path it.«to» e

/-- The `for (let i = 0; i < cap; i++)` loop of the webhook handler:
`i` is the current index, the second argument the number of iterations
still to run, and `post i it` the outcome of posting item `it` at
iteration `i` (success with the created id, or the caught error). -/
def postLoopGo (post : Nat → InlineItem → Except String String) :
    Nat → Nat → List InlineItem → List DeliveryOutcome
  | _, 0, _ => []
  | _, _ + 1, [] => []
  | i, n + 1, it :: rest => outcomeOf (post i it) it :: postLoopGo post (i + 1) n rest

/-- Inline delivery of the webhook handler in `src/server.ts`: the cap is
`Math.min(inline.length, MAX_INLINE_COMMENTS)` (the configured maximum
defaults to 10) and exactly the first `cap` items are posted in order,
each outcome pushed at its position. -/
def deliverInline (items : List InlineItem) (maxInline : Nat)
    (post : Nat → InlineItem → Except String String) : List DeliveryOutcome :=
  postLoopGo post 0 (min items.length maxInline) items

/-- Default value of the `MAX_INLINE_COMMENTS` configuration. -/
def defaultMaxInline : Nat := 10

/-- Specification-side description of the delivery loop, following the
claim: take exactly the first `min items.length maxInline` items, in input
order, and record one outcome per attempted item at its position. -/
def deliverySpecGo (post : Nat → InlineItem → Except String String) :
    Nat → List InlineItem → List DeliveryOutcome
  | _, [] => []
  | i, it :: rest => outcomeOf (post i it) it :: deliverySpecGo post (i + 1) rest

/-- Specification-side delivery: outcome list over the capped prefix. -/
def deliverySpec (items : List InlineItem) (maxInline : Nat)
    (post : Nat → InlineItem → Except String String) : List DeliveryOutcome :=
  deliverySpecGo post 0 (items.take (min items.length maxInline))

/-- Number of files the scan state will eventually emit: the closed files
plus the open one. -/
def fileMeasure (st : PState) : Nat :=
  st.files.length + (match st.currentFile with | some _ => 1 | none => 0)

/-- Additions recorded so far across closed files and the open file. -/
def stAdds (st : PState) : Nat :=
  (st.files.map ParsedFile.additions).sum +
  (match st.currentFile with | some f => f.additions | none => 0)

/-- Deletions recorded so far across closed files and the open file. -/
def stDels (st : PState) : Nat :=
  (st.files.map ParsedFile.deletions).sum +
  (match st.currentFile with | some f => f.deletions | none => 0)

/-- All raw content lines of a hunk list. -/
def hunksLines (hs : List DiffHunk) : List String := (hs.map DiffHunk.lines).flatten

/-- All raw content lines stored anywhere in the scan state. -/
def stateLines (st : PState) : List String :=
  (st.files.map (fun f => hunksLines f.hunks)).flatten ++
  (match st.currentFile with | some f => hunksLines f.hunks | none => []) ++
  (match st.currentHunk with | some h => h.lines | none => [])

/-- Concrete diff with one context and one added line. -/
def c1diff : String := "diff --git a/f b/f\n@@ -1,2 +1,2 @@\n ctx\n+add"

/-- Concrete diff with one context and one added line in one hunk. -/
def c2diff : String := "diff --git a/g b/g\n@@ -3,2 +3,2 @@\n keep\n+new"

/-- Concrete two-hunk diff with additions, a deletion and context. -/
def c2wdiff : String :=
  "diff --git a/w b/w\n@@ -1,3 +1,3 @@\n a\n+b\n-c\n@@ -9,1 +9,2 @@\n d\n+e"

/-- Concrete diff whose hunk has a deletion and a context line. -/
def c3diff : String := "diff --git a/h b/h\n@@ -1,2 +1,1 @@\n ctx\n-del"

/-- Concrete diff consisting of a file header with no hunk at all. -/
def c4diff : String := "diff --git a/empty b/empty"

/-- Concrete diff whose only valid destination line is 2. -/
def c5wdiff : String := "diff --git a/f5 b/f5\n@@ -1,1 +1,2 @@\n k\n+v"

/-- Well-typed candidate targeting line 99, absent from `c5wdiff`. -/
def c5wcand : JVal := .jobj
  [("relevant_file", .jstr "f5"), ("relevant_lines_start", .jnum 99),
   ("relevant_lines_end", .jnum 99), ("suggestion_content", .jstr "offside"),
   ("label", .jstr "bug_risk"), ("score", .jnum 8)]

/-- The typed view of `c5wcand`. -/
def c5wsug : InlineSuggestion :=
  { relevant_file := "f5", relevant_lines_start := 99, relevant_lines_end := 99,
    suggestion_content := "offside", label := "bug_risk", score := 8 }

/-- Concrete diff whose only valid destination line is 2. -/
def c6diff : String := "diff --git a/f6 b/f6\n@@ -1,1 +1,2 @@\n k\n+v"

/-- Valid high-score candidate targeting the valid line 2 of `c6diff`. -/
def c6good : JVal := .jobj
  [("relevant_file", .jstr "f6"), ("relevant_lines_start", .jnum 2),
   ("relevant_lines_end", .jnum 2), ("suggestion_content", .jstr "finding"),
   ("label", .jstr "security"), ("score", .jnum 9)]

/-- Well-typed candidate with a sub-threshold score of 3. -/
def c6wlow : JVal := .jobj
  [("relevant_file", .jstr "f6"), ("relevant_lines_start", .jnum 2),
   ("relevant_lines_end", .jnum 2), ("suggestion_content", .jstr "minor"),
   ("label", .jstr "code_smell"), ("score", .jnum 3)]

/-- The typed view of `c6wlow`. -/
def c6wsug : InlineSuggestion :=
  { relevant_file := "f6", relevant_lines_start := 2, relevant_lines_end := 2,
    suggestion_content := "minor", label := "code_smell", score := 3 }

/-- A 503-classified remote error. -/
def err503 : JsErr := { message := "Service Unavailable", status := some 503 }

/-- A 400-classified remote error. -/
def err400 : JsErr := { message := "Bad Request", status := some 400 }

/-!  Helper lemmas about the scan loop of `parseDiff`. -/

theorem foldl_stepLine_measure {μ : PState → Nat} {g : String → Nat}
    (hstep : ∀ st l, μ (stepLine st l) = μ st + g l) :
    ∀ (ls : List String) (st : PState), μ (ls.foldl stepLine st) = μ st + (ls.map g).sum := by
  intro ls
  induction ls with
  | nil => intro st; simp
  | cons l ls ih =>
    intro st
    simp only [List.foldl_cons, List.map_cons, List.sum_cons]
    rw [ih, hstep]
    omega

theorem foldl_stepLine_inv {P : PState → Prop}
    (hstep : ∀ st l, P st → P (stepLine st l)) :
    ∀ (ls : List String) (st : PState), P st → P (ls.foldl stepLine st) := by
  intro ls
  induction ls with
  | nil => intro st h; exact h
  | cons l ls ih => intro st h; exact ih _ (hstep st l h)

theorem sum_ite_length (p : String → Bool) (ls : List String) :
    (ls.map (fun l => if p l then 1 else 0)).sum = (ls.filter p).length := by
  induction ls with
  | nil => rfl
  | cons a as ih =>
    by_cases h : p a <;> simp [List.filter_cons, h, ih] <;> omega

theorem stepLine_fileMeasure (st : PState) (l : String) :
    fileMeasure (stepLine st l) = fileMeasure st + (if strStarts l "diff --git" then 1 else 0) := by
  obtain ⟨fs, ta, td, cf, ch, pc⟩ := st
  rcases cf with _ | f <;> rcases ch with _ | h <;>
    simp only [stepLine, fileMeasure] <;>
    split_ifs <;>
    cases hm : matchHunkLine l <;>
    simp [hm] <;> omega

theorem finishParse_files_length (st : PState) :
    (finishParse st).files.length = fileMeasure st := by
  obtain ⟨fs, ta, td, cf, ch, pc⟩ := st
  rcases cf with _ | f <;> rcases ch with _ | h <;> simp [finishParse, fileMeasure]

/-- C4 (amended): `parseDiff` emits exactly one `ParsedFile` per
`diff --git` line of the input, whether or not any hunk header follows it,
so a file section without a recognized hunk is emitted with an empty hunk
list rather than dropped. -/
theorem C4_file_per_git_header (s : String) :
    (parseDiff s).files.length =
      ((splitLines s).filter (fun l => strStarts l "diff --git")).length := by
  have h := foldl_stepLine_measure (μ := fileMeasure)
    (g := fun l => if strStarts l "diff --git" then 1 else 0)
    stepLine_fileMeasure (splitLines s) initPState
  have h0 : fileMeasure initPState = 0 := by simp [initPState, fileMeasure]
  calc (parseDiff s).files.length
      = fileMeasure ((splitLines s).foldl stepLine initPState) := by
        simp [parseDiff, finishParse_files_length]
    _ = ((splitLines s).filter (fun l => strStarts l "diff --git")).length := by
        rw [h, h0, sum_ite_length]; simp

/-- C4 counterexample: on a diff consisting of a bare file header,
`parseDiff` emits a `ParsedFile` whose hunk list is empty, refuting the
claim that a file section with no recognized hunk header is never
emitted. -/
theorem C4_zero_hunk_file_emitted :
    (parseDiff c4diff).files.map ParsedFile.hunks = [[]] ∧
    (parseDiff c4diff).files.length = 1 := by
  decide

theorem stepLine_totals (st : PState) (l : String)
    (h : st.totalAdditions = stAdds st ∧ st.totalDeletions = stDels st) :
    (stepLine st l).totalAdditions = stAdds (stepLine st l) ∧
    (stepLine st l).totalDeletions = stDels (stepLine st l) := by
  obtain ⟨fs, ta, td, cf, ch, pc⟩ := st
  obtain ⟨h1, h2⟩ := h
  simp only [stAdds, stDels] at h1 h2
  rcases cf with _ | f <;> rcases ch with _ | h <;>
    simp only [stepLine, stAdds, stDels] <;>
    split_ifs <;>
    cases hm : matchHunkLine l <;>
    simp_all [closeHunkInto] <;> omega

theorem finishParse_totals (st : PState)
    (h : st.totalAdditions = stAdds st ∧ st.totalDeletions = stDels st) :
    (finishParse st).totalAdditions = ((finishParse st).files.map ParsedFile.additions).sum ∧
    (finishParse st).totalDeletions = ((finishParse st).files.map ParsedFile.deletions).sum := by
  obtain ⟨fs, ta, td, cf, ch, pc⟩ := st
  obtain ⟨h1, h2⟩ := h
  simp only [stAdds, stDels] at h1 h2
  rcases cf with _ | f <;> rcases ch with _ | h <;>
    simp_all [finishParse, closeHunkInto]

/-- C10: the running totals of `parseDiff` are consistent with the
per-file counters: `totalAdditions` is the sum of `additions` over the
emitted files and `totalDeletions` the sum of `deletions`, for every
input string. -/
theorem C10_totals_consistent (s : String) :
    (parseDiff s).totalAdditions = ((parseDiff s).files.map ParsedFile.additions).sum ∧
    (parseDiff s).totalDeletions = ((parseDiff s).files.map ParsedFile.deletions).sum := by
  have hinv := foldl_stepLine_inv
    (P := fun st => st.totalAdditions = stAdds st ∧ st.totalDeletions = stDels st)
    stepLine_totals (splitLines s) initPState (by simp [initPState, stAdds, stDels])
  exact finishParse_totals _ hinv

theorem matchHunkAt_lines (cs : List Char) (h : DiffHunk) (hm : matchHunkAt cs = some h) :
    h.lines = [] := by
  unfold matchHunkAt at hm
  split_ifs at hm <;> simp_all
  rw [← hm]

theorem findHunkMatch_lines (cs : List Char) :
    ∀ h : DiffHunk, findHunkMatch cs = some h → h.lines = [] := by
  induction cs with
  | nil => intro h hm; simp [findHunkMatch] at hm
  | cons c cs ih =>
    intro h hm
    simp only [findHunkMatch] at hm
    cases hma : matchHunkAt (c :: cs) with
    | some h2 => rw [hma] at hm; cases hm; exact matchHunkAt_lines _ _ hma
    | none => rw [hma] at hm; exact ih h hm

theorem matchHunkLine_lines (l : String) (h : DiffHunk) (hm : matchHunkLine l = some h) :
    h.lines = [] := findHunkMatch_lines _ _ hm

theorem stepLine_stateLines (st : PState) (l : String) :
    ∀ x ∈ stateLines (stepLine st l), x ∈ stateLines st ∨ x = l := by
  obtain ⟨fs, ta, td, cf, ch, pc⟩ := st
  intro x
  rcases cf with _ | f <;> rcases ch with _ | h <;>
    simp only [stepLine, stateLines] <;>
    split_ifs <;>
    cases hm : matchHunkLine l <;>
    (try have hlines := matchHunkLine_lines l _ hm) <;>
    simp_all [closeHunkInto, hunksLines, List.mem_replicate] <;>
    aesop

theorem foldl_stepLine_stateLines :
    ∀ (ls : List String) (st : PState) (x : String),
      x ∈ stateLines (ls.foldl stepLine st) → x ∈ stateLines st ∨ x ∈ ls := by
  intro ls
  induction ls with
  | nil => intro st x h; exact Or.inl h
  | cons l ls ih =>
    intro st x h
    rcases ih (stepLine st l) x h with h2 | h2
    · rcases stepLine_stateLines st l x h2 with h3 | h3
      · exact Or.inl h3
      · exact Or.inr (by simp [h3])
    · exact Or.inr (by simp [h2])

theorem finishParse_stateLines (st : PState) (f : ParsedFile) (h : DiffHunk) (l : String)
    (hf : f ∈ (finishParse st).files) (hh : h ∈ f.hunks) (hl : l ∈ h.lines) :
    l ∈ stateLines st := by
  obtain ⟨fs, ta, td, cf, ch, pc⟩ := st
  rcases cf with _ | cf0 <;> rcases ch with _ | ch0 <;>
    simp_all [finishParse, stateLines, closeHunkInto, hunksLines, List.mem_replicate] <;>
    aesop

theorem stepLine_totalSum_le (st : PState) (l : String) :
    (stepLine st l).totalAdditions + (stepLine st l).totalDeletions ≤
      st.totalAdditions + st.totalDeletions + 1 := by
  obtain ⟨fs, ta, td, cf, ch, pc⟩ := st
  rcases cf with _ | f <;> rcases ch with _ | h <;>
    simp only [stepLine] <;>
    split_ifs <;>
    cases hm : matchHunkLine l <;>
    simp_all <;> omega

theorem foldl_stepLine_totalSum_le :
    ∀ (ls : List String) (st : PState),
      (ls.foldl stepLine st).totalAdditions + (ls.foldl stepLine st).totalDeletions ≤
        st.totalAdditions + st.totalDeletions + ls.length := by
  intro ls
  induction ls with
  | nil => intro st; simp
  | cons l ls ih =>
    intro st
    have h1 := ih (stepLine st l)
    have h2 := stepLine_totalSum_le st l
    simp only [List.foldl_cons, List.length_cons]
    omega

/-- C9: `parseDiff` is a total pure function of its input: for every
string, including malformed or truncated diffs, it produces a
`ParsedDiff` whose hunk content lines all come from the input lines and
whose totals are bounded by the number of input lines; unrecognized
material is skipped rather than failing. -/
theorem C9_parseDiff_total_safe (s : String) :
    ((parseDiff s).files.all (fun f => f.hunks.all (fun h =>
        h.lines.all (fun l => (splitLines s).contains l)))) = true ∧
    (parseDiff s).totalAdditions + (parseDiff s).totalDeletions ≤ (splitLines s).length := by
  constructor
  · simp only [List.all_eq_true]
    intro f hf h hh l hl
    have hmem : l ∈ stateLines ((splitLines s).foldl stepLine initPState) :=
      finishParse_stateLines _ f h l hf hh hl
    have := foldl_stepLine_stateLines (splitLines s) initPState l hmem
    rcases this with h2 | h2
    · simp [initPState, stateLines] at h2
    · exact List.elem_eq_true_of_mem h2
  · have hb := foldl_stepLine_totalSum_le (splitLines s) initPState
    have hfin : (parseDiff s).totalAdditions + (parseDiff s).totalDeletions =
        ((splitLines s).foldl stepLine initPState).totalAdditions +
        ((splitLines s).foldl stepLine initPState).totalDeletions := by
      simp only [parseDiff]
      obtain ⟨fs, ta, td, cf, ch, pc⟩ := (splitLines s).foldl stepLine initPState
      rcases cf with _ | f <;> rcases ch with _ | h <;> simp [finishParse]
    rw [hfin]
    simpa [initPState] using hb

theorem modLinesGo_length (ls : List String) :
    ∀ n, (modLinesGo ls n).length = (ls.filter (fun l => isAddLine l)).length := by
  induction ls with
  | nil => intro n; rfl
  | cons l ls ih =>
    intro n
    by_cases ha : isAddLine l
    · simp [modLinesGo, ha, List.filter_cons, ih]
    · by_cases hd : strStarts l "-" <;>
        simp [modLinesGo, ha, hd, List.filter_cons, ih]

theorem foldl_append_length {A B : Type} (g : B → List A) :
    ∀ (hs : List B) (acc : List A),
      (hs.foldl (fun a h => a ++ g h) acc).length =
        acc.length + (hs.map (fun h => (g h).length)).sum := by
  intro hs
  induction hs with
  | nil => intro acc; simp
  | cons h hs ih =>
    intro acc
    simp only [List.foldl_cons, List.map_cons, List.sum_cons]
    rw [ih]
    simp
    omega

/-- C1 (amended): for every input diff text and every file of the parsed
result, the line-number list returned by `getModifiedLineNumbers` has
exactly one entry per added line (`+` but not `+++`) across the hunks of
that file; context lines are not recorded. -/
theorem C1_modified_lines_count (d : String) :
    ((parseDiff d).files.all
      (fun f => (getModifiedLineNumbers f).length == countAddedLines f)) = true := by
  simp only [List.all_eq_true, beq_iff_eq]
  intro f hf
  simp only [getModifiedLineNumbers, countAddedLines]
  rw [foldl_append_length (g := hunkModifiedLines) f.hunks []]
  simp only [List.length_nil, Nat.zero_add]
  congr 1
  apply List.map_congr_left
  intro h hh
  exact modLinesGo_length h.lines h.newStart

/-- C1 counterexample: on `c1diff`, whose hunk has one context line and
one added line, the destination line-number set has size 1 while the
non-deletion (added plus context) line count is 2, so the claimed equality
fails. -/
theorem C1_context_not_counted :
    (parseDiff c1diff).files.map
        (fun f => (((getModifiedLineNumbers f).eraseDups).length, nonDeletionLineCount f)) =
      [(1, 2)] ∧ (1 : Nat) ≠ 2 := by
  decide

theorem strStarts_plus_of_triple {l : String} (h : strStarts l "+++" = true) :
    strStarts l "+" = true := by
  simp only [strStarts] at h ⊢
  cases hc : l.toList with
  | nil => rw [hc] at h; simp [List.isPrefixOf] at h
  | cons c cs =>
    rw [hc] at h
    simp only [show ("+++".toList) = [Char.ofNat 43, Char.ofNat 43, Char.ofNat 43] from rfl,
      List.isPrefixOf, Bool.and_eq_true] at h
    simp [show ("+".toList) = [Char.ofNat 43] from rfl, List.isPrefixOf, h.1]

theorem strStarts_minus_of_triple {l : String} (h : strStarts l "---" = true) :
    strStarts l "-" = true := by
  simp only [strStarts] at h ⊢
  cases hc : l.toList with
  | nil => rw [hc] at h; simp [List.isPrefixOf] at h
  | cons c cs =>
    rw [hc] at h
    simp only [show ("---".toList) = [Char.ofNat 45, Char.ofNat 45, Char.ofNat 45] from rfl,
      List.isPrefixOf, Bool.and_eq_true] at h
    simp [show ("-".toList) = [Char.ofNat 45] from rfl, List.isPrefixOf, h.1]

theorem hunkNewOldGo_old (ls : List String) :
    ∀ n, (hunkNewOldGo ls n).2 = ls.filter oldLinePred := by
  induction ls with
  | nil => intro n; rfl
  | cons l ls ih =>
    intro n
    by_cases ha : isAddLine l
    · simp [hunkNewOldGo, oldLinePred, ha, List.filter_cons, ih]
    · by_cases hd : isDelLine l
      · simp [hunkNewOldGo, oldLinePred, ha, hd, List.filter_cons, ih]
      · by_cases hc : (!(strStarts l "---") && !(strStarts l "+++")) = true
        · simp [hunkNewOldGo, oldLinePred, ha, hd, hc, List.filter_cons, ih]
        · simp [hunkNewOldGo, oldLinePred, ha, hd, hc, List.filter_cons, ih]

/-- C3 (amended): for every parsed diff and every hunk, the
`__old hunk__` block rendered by the formatter consists of exactly the
deleted lines and the context lines of the hunk, verbatim and in order
(no line numbers are attached), and an added line never appears in it. -/
theorem C3_old_hunk_content (d : String) :
    ((parseDiff d).files.all (fun f => f.hunks.all (fun h =>
      ((hunkNewOld h).2 == h.lines.filter oldLinePred) &&
      (hunkNewOld h).2.all (fun l => !(isAddLine l))))) = true := by
  simp only [List.all_eq_true, Bool.and_eq_true, beq_iff_eq]
  intro f hf h hh
  refine ⟨hunkNewOldGo_old h.lines h.newStart, ?_⟩
  intro l hl
  simp only [hunkNewOld] at hl
  rw [hunkNewOldGo_old h.lines h.newStart] at hl
  have hp := List.of_mem_filter hl
  simp only [oldLinePred] at hp
  by_cases ha : isAddLine l
  · simp [ha] at hp
  · simp [ha]

/-- C3 counterexample: on `c3diff` the rendered `__old hunk__` block is
`[" ctx", "-del"]`, which contains the context line `" ctx"`, refuting the
claim that only deleted lines appear there. -/
theorem C3_old_hunk_has_context :
    ((parseDiff c3diff).files.map (fun f => f.hunks.map (fun h => (hunkNewOld h).2))) =
      [[[" ctx", "-del"]]] ∧ strStarts " ctx" "-" = false := by
  decide

theorem hunkNewOldGo_added (ls : List String) :
    ∀ n, (∀ l ∈ ls, strStarts l "+++" = false) →
      (((hunkNewOldGo ls n).1.filter (fun p => strStarts p.2 "+")).map Prod.fst) =
        modLinesGo ls n := by
  induction ls with
  | nil => intro n _; rfl
  | cons l ls ih =>
    intro n h
    have hl : strStarts l "+++" = false := h l (by simp)
    have hrest : ∀ x ∈ ls, strStarts x "+++" = false := fun x hx => h x (by simp [hx])
    by_cases ha : isAddLine l
    · have hplus : strStarts l "+" = true := by
        have := ha
        simp only [isAddLine, Bool.and_eq_true] at this
        exact this.1
      simp [hunkNewOldGo, modLinesGo, ha, hplus, List.filter_cons, ih _ hrest]
    · by_cases hd : isDelLine l
      · have hminus : strStarts l "-" = true := by
          have := hd
          simp only [isDelLine, Bool.and_eq_true] at this
          exact this.1
        simp [hunkNewOldGo, modLinesGo, ha, hd, hminus, ih _ hrest]
      · by_cases hc : (!(strStarts l "---") && !(strStarts l "+++")) = true
        · have hcc := hc
          simp only [Bool.and_eq_true, Bool.not_eq_true'] at hcc
          have hplus : strStarts l "+" = false := by
            cases hp : strStarts l "+" with
            | false => rfl
            | true => exact absurd (by simp [isAddLine, hp, hl]) ha
          have hminus : strStarts l "-" = false := by
            cases hm2 : strStarts l "-" with
            | false => rfl
            | true => exact absurd (by simp [isDelLine, hm2, hcc.1]) hd
          simp [hunkNewOldGo, modLinesGo, ha, hd, hc, hplus, hminus, List.filter_cons, ih _ hrest]
        · have hminus : strStarts l "-" = true := by
            cases h3 : strStarts l "---" with
            | true => exact strStarts_minus_of_triple h3
            | false => exact absurd (by simp [h3, hl]) hc
          simp [hunkNewOldGo, modLinesGo, ha, hd, hc, hminus, ih _ hrest]

theorem added_filter_eq_nil {h : DiffHunk} (hna : hunkHasAdditions h = false) :
    (hunkNewOld h).1.filter (fun p => strStarts p.2 "+") = [] := by
  simp only [hunkHasAdditions, List.any_eq_false] at hna
  rw [List.filter_eq_nil]
  intro p hp
  simp [hna p hp]

theorem foldl_append_congr {A B : Type} {g g2 : B → List A} :
    ∀ (hs : List B) (acc : List A), (∀ x ∈ hs, g x = g2 x) →
      hs.foldl (fun a h => a ++ g h) acc = hs.foldl (fun a h => a ++ g2 h) acc := by
  intro hs
  induction hs with
  | nil => intro acc _; rfl
  | cons b bs ih =>
    intro acc h
    simp only [List.foldl_cons]
    rw [h b (by simp), ih _ (fun x hx => h x (by simp [hx]))]

/-- C2 (amended): when no hunk content line starts with `+++`, the
destination line numbers annotated on the added (`+`-prefixed) lines of
the `__new hunk__` blocks rendered for a file coincide with
`getModifiedLineNumbers` for that file.  (The original claim compared
the numbers of all annotated lines, but the blocks also annotate context
lines, and a `+++` content line desynchronises the two counters.) -/
theorem C2_added_annotation_matches (d : String)
    (hpp : ∀ f ∈ (parseDiff d).files, ∀ h ∈ f.hunks, ∀ l ∈ h.lines,
      strStarts l "+++" = false) :
    ((parseDiff d).files.all
      (fun f => newHunkAddedNums f == getModifiedLineNumbers f)) = true := by
  simp only [List.all_eq_true, beq_iff_eq]
  intro f hf
  have hfile := hpp f hf
  simp only [newHunkAddedNums, getModifiedLineNumbers]
  apply foldl_append_congr
  intro h hh
  have hh2 := hfile h hh
  by_cases he : emittedHunk h = true
  · simp only [he, if_true]
    exact hunkNewOldGo_added h.lines h.newStart hh2
  · simp only [he, if_false]
    have hna : hunkHasAdditions h = false := by
      simp only [emittedHunk, Bool.or_eq_true, Bool.not_eq_true] at he
      cases hx : hunkHasAdditions h
      · rfl
      · exact absurd (Or.inl hx) he
    have h1 := added_filter_eq_nil hna
    have h2 := hunkNewOldGo_added h.lines h.newStart hh2
    simp only [hunkNewOld] at h1
    rw [h1] at h2
    simp only [List.map_nil] at h2
    exact h2.symm ▸ rfl

/-- C2 counterexample: on `c2diff` the `__new hunk__` block annotates
lines 3 (context) and 4 (added) while `getModifiedLineNumbers` returns
only 4, so the two sets differ. -/
theorem C2_annotated_context_drifts :
    (parseDiff c2diff).files.map newHunkAllNums = [[3, 4]] ∧
    (parseDiff c2diff).files.map getModifiedLineNumbers = [[4]] ∧
    (3 : Nat) ∉ ([4] : List Nat) := by
  decide

/-- C2 witness: the amended round-trip equality evaluated on the concrete
two-hunk diff `c2wdiff`. -/
theorem C2_added_annotation_matches_witness :
    (∀ f ∈ (parseDiff c2wdiff).files, ∀ h ∈ f.hunks, ∀ l ∈ h.lines,
      strStarts l "+++" = false) ∧
    ((parseDiff c2wdiff).files.all
      (fun f => newHunkAddedNums f == getModifiedLineNumbers f)) = true :=
  ⟨by decide, C2_added_annotation_matches c2wdiff (by decide)⟩

theorem extractSuggestion_jobj {v : JVal} {s : InlineSuggestion}
    (h : extractSuggestion v = some s) : ∃ fs, v = JVal.jobj fs := by
  cases v with
  | jobj fs => exact ⟨fs, rfl⟩
  | jnull => simp [extractSuggestion, getStrField, getFieldJ] at h
  | jbool b => simp [extractSuggestion, getStrField, getFieldJ] at h
  | jnum n => simp [extractSuggestion, getStrField, getFieldJ] at h
  | jstr s2 => simp [extractSuggestion, getStrField, getFieldJ] at h
  | jarr es => simp [extractSuggestion, getStrField, getFieldJ] at h

theorem isValid_jobj_ne_error (fs : List (String × JVal)) :
    isValidSuggestionE (JVal.jobj fs) ≠ .error () := by
  simp [isValidSuggestionE, typeofJ]

theorem fileMapFind_some {files : List ParsedFile} {p : String} {valid : List Nat}
    (h : fileMapFind files p = some valid) :
    ∃ f ∈ files, f.path = p ∧ valid = getModifiedLineNumbers f := by
  simp only [fileMapFind] at h
  cases hf : files.reverse.find? (fun f => f.path == p) with
  | none => rw [hf] at h; cases h
  | some f0 =>
    rw [hf] at h
    cases h
    have hmem := List.mem_of_find?_eq_some hf
    have hpred := List.find?_some hf
    simp only [beq_iff_eq] at hpred
    exact ⟨f0, List.mem_reverse.mp hmem, hpred, rfl⟩

/-- C5: with the strict file and line validation of `runClaudeInline`, a
well-typed candidate whose `relevant_file` matches no parsed file, or
whose `relevant_lines_end` lies outside the valid destination-line set of
every parsed file of that path, contributes no `InlineItem`: the
validation loop on that candidate equals the loop on the remaining
candidates alone. -/
theorem C5_strict_line_validation (d : String) (v : JVal) (rest : List JVal)
    (s : InlineSuggestion) (hs : extractSuggestion v = some s)
    (hline : ∀ f ∈ (parseDiff d).files, f.path = s.relevant_file →
      s.relevant_lines_end ∉ (getModifiedLineNumbers f).map Int.ofNat) :
    runValidateLoop (fun p => fileMapFind (parseDiff d).files p) (v :: rest) =
      runValidateLoop (fun p => fileMapFind (parseDiff d).files p) rest := by
  obtain ⟨fs, rfl⟩ := extractSuggestion_jobj hs
  simp only [runValidateLoop]
  cases hv : isValidSuggestionE (JVal.jobj fs) with
  | error e => cases e; exact absurd hv (isValid_jobj_ne_error fs)
  | ok b =>
    cases b with
    | false => rfl
    | true =>
      rw [hs]
      by_cases hscore : s.score < 6
      · simp [hscore]
      · simp only [hscore, if_false]
        cases hfm : fileMapFind (parseDiff d).files s.relevant_file with
        | none => rfl
        | some valid =>
          obtain ⟨f0, hmem, hpath, hvalid⟩ := fileMapFind_some hfm
          have hnot := hline f0 hmem hpath
          rw [hvalid]
          simp [hnot]

/-- C5 witness: the candidate `c5wcand` targets line 99, absent from the
valid-line set of `c5wdiff`, and is dropped by the validation loop. -/
theorem C5_strict_line_validation_witness :
    extractSuggestion c5wcand = some c5wsug ∧
    (∀ f ∈ (parseDiff c5wdiff).files, f.path = c5wsug.relevant_file →
      c5wsug.relevant_lines_end ∉ (getModifiedLineNumbers f).map Int.ofNat) ∧
    runValidateLoop (fun p => fileMapFind (parseDiff c5wdiff).files p) [c5wcand] =
      runValidateLoop (fun p => fileMapFind (parseDiff c5wdiff).files p) [] :=
  ⟨by decide, by decide,
    C5_strict_line_validation c5wdiff c5wcand [] c5wsug (by decide) (by decide)⟩

/-- C6 (amended): a non-null candidate that fails the schema or score-range
check of `isValidSuggestion`, or carries `score < 6`, contributes no
`InlineItem` and does not disturb the processing of the remaining
candidates; a `null` candidate, however, raises and aborts the whole
validation, yielding zero items. -/
theorem C6_rejection_skips (fm : String → Option (List Nat)) (v : JVal) (rest : List JVal)
    (h : isValidSuggestionE v = .ok false ∨
      ∃ s, extractSuggestion v = some s ∧ s.score < 6) :
    runValidateLoop fm (v :: rest) = runValidateLoop fm rest := by
  rcases h with h | ⟨s, hs, hlt⟩
  · simp only [runValidateLoop, h]
  · obtain ⟨fs, rfl⟩ := extractSuggestion_jobj hs
    simp only [runValidateLoop]
    cases hv : isValidSuggestionE (JVal.jobj fs) with
    | error e => cases e; exact absurd hv (isValid_jobj_ne_error fs)
    | ok b =>
      cases b with
      | false => rfl
      | true => rw [hs]; simp [hlt]

/-- C6 witness: the well-typed but low-scoring candidate `c6wlow` is
skipped by the validation loop over the diff `c6diff`. -/
theorem C6_rejection_skips_witness :
    (∃ s, extractSuggestion c6wlow = some s ∧ s.score < 6) ∧
    runValidateLoop (fun p => fileMapFind (parseDiff c6diff).files p) [c6wlow] =
      runValidateLoop (fun p => fileMapFind (parseDiff c6diff).files p) [] :=
  ⟨⟨c6wsug, by decide, by decide⟩,
    C6_rejection_skips (fun p => fileMapFind (parseDiff c6diff).files p) c6wlow []
      (Or.inr ⟨c6wsug, by decide, by decide⟩)⟩

/-- C6 counterexample: a `null` element in the candidate array raises
inside `isValidSuggestion`, so `runClaudeInline` catches and returns no
items, although the remaining candidate on its own yields an item: the
rejection is not limited to the offending candidate. -/
theorem C6_null_candidate_aborts :
    runClaudeInline (JVal.jarr [JVal.jnull, c6good]) c6diff = [] ∧
    runClaudeInline (JVal.jarr [c6good]) c6diff ≠ [] := by
  decide

theorem retryGo_all_retryable {E T : Type} (retryable : E → Bool) (fn : Nat → Except E T)
    (mul maxDelay : Nat) :
    ∀ (fuel attempt delay : Nat),
      (∀ i, attempt ≤ i → i ≤ attempt + fuel → ∃ e, fn i = .error e ∧ retryable e = true) →
      (retryGo retryable fn mul maxDelay fuel attempt delay).attempts = attempt + fuel + 1 ∧
      ∃ e, fn (attempt + fuel) = .error e ∧
        (retryGo retryable fn mul maxDelay fuel attempt delay).result = .error e := by
  intro fuel
  induction fuel with
  | zero =>
    intro attempt delay h
    obtain ⟨e, he, hr⟩ := h attempt (Nat.le_refl _) (by omega)
    simp [retryGo, he]
  | succ n ih =>
    intro attempt delay h
    obtain ⟨e, he, hr⟩ := h attempt (Nat.le_refl _) (by omega)
    have ih2 := ih (attempt + 1) (min (delay * mul) maxDelay)
      (fun i h1 h2 => h i (by omega) (by omega))
    simp only [retryGo, he, hr, Bool.not_true, Bool.false_eq_true, if_false]
    constructor
    · rw [ih2.1]; omega
    · have harith : attempt + (n + 1) = attempt + 1 + n := by omega
      rw [harith]
      exact ih2.2

theorem retryGo_nonretryable {E T : Type} (retryable : E → Bool) (fn : Nat → Except E T)
    (mul maxDelay : Nat) (fuel delay : Nat) (e : E)
    (he : fn 0 = .error e) (hr : retryable e = false) :
    retryGo retryable fn mul maxDelay fuel 0 delay =
      { result := .error e, attempts := 1 } := by
  cases fuel with
  | zero => simp [retryGo, he]
  | succ n => simp [retryGo, he, hr]

/-- C7: wrapping an operation in `retryWithBackoff` with the
`isRetryableError` predicate invokes it exactly `maxRetries + 1` times
when every attempt fails with a retryable error (4 total attempts at the
default `maxRetries = 3`) and finally raises the last error, while an
operation whose first attempt fails with a non-retryable error is invoked
exactly once and its error raised immediately. -/
theorem C7_retry_attempt_counts {T : Type} (fn fn2 : Nat → Except JsErr T)
    (maxRetries initialDelay maxDelay mul : Nat) :
    ((∀ i, i ≤ maxRetries → ∃ e, fn i = .error e ∧ isRetryableError e = true) →
      (retryWithBackoff fn maxRetries initialDelay maxDelay mul isRetryableError).attempts =
        maxRetries + 1 ∧
      ∃ e, fn maxRetries = .error e ∧
        (retryWithBackoff fn maxRetries initialDelay maxDelay mul isRetryableError).result =
          .error e) ∧
    (∀ e, fn2 0 = .error e → isRetryableError e = false →
      retryWithBackoff fn2 maxRetries initialDelay maxDelay mul isRetryableError =
        { result := .error e, attempts := 1 }) := by
  constructor
  · intro h
    have hall := retryGo_all_retryable isRetryableError fn mul maxDelay maxRetries 0 initialDelay
      (fun i h1 h2 => h i (by omega))
    simpa [retryWithBackoff] using hall
  · intro e he hr
    exact retryGo_nonretryable isRetryableError fn2 mul maxDelay maxRetries initialDelay e he hr

/-- C7 witness: with the source defaults (3 retries, initial delay 1000,
max delay 10000, multiplier 2), an operation always failing with a
503-status error is attempted 4 times, and one failing with a 400-status
error is attempted exactly once. -/
theorem C7_retry_attempt_counts_witness :
    (retryWithBackoff (fun _ => (.error err503 : Except JsErr String)) 3 1000 10000 2
      isRetryableError).attempts = 4 ∧
    retryWithBackoff (fun _ => (.error err400 : Except JsErr String)) 3 1000 10000 2
      isRetryableError = { result := .error err400, attempts := 1 } := by
  have h := C7_retry_attempt_counts (T := String)
    (fun _ => .error err503) (fun _ => .error err400) 3 1000 10000 2
  exact ⟨(h.1 (fun i _ => ⟨err503, rfl, by decide⟩)).1, h.2 err400 rfl (by decide)⟩

theorem postLoopGo_eq_spec (post : Nat → InlineItem → Except String String) :
    ∀ (items : List InlineItem) (n i : Nat), n ≤ items.length →
      postLoopGo post i n items = deliverySpecGo post i (items.take n) := by
  intro items
  induction items with
  | nil =>
    intro n i hn
    have h0 : n = 0 := by simpa using hn
    subst h0
    rfl
  | cons it rest ih =>
    intro n i hn
    cases n with
    | zero => rfl
    | succ m =>
      simp only [postLoopGo, List.take_succ_cons, deliverySpecGo]
      rw [ih m (i + 1) (by simpa using hn)]

/-- C8: the inline delivery loop of the webhook handler attempts exactly
the first `min items.length maxInline` items in input order (the
configured maximum defaults to 10): it equals the specification that maps
the post outcome over the capped prefix, items beyond the cap are never
posted, and the outcome list has exactly one entry per attempted item at
the position of its input item. -/
theorem C8_delivery_cap_order (items : List InlineItem) (maxInline : Nat)
    (post : Nat → InlineItem → Except String String) :
    deliverInline items maxInline post = deliverySpec items maxInline post ∧
    (deliverInline items maxInline post).length = min items.length maxInline := by
  have hcap : min items.length maxInline ≤ items.length := Nat.min_le_left _ _
  have heq := postLoopGo_eq_spec post items (min items.length maxInline) 0 hcap
  have hlen : ∀ (l : List InlineItem) (i : Nat), (deliverySpecGo post i l).length = l.length := by
    intro l
    induction l with
    | nil => intro i; rfl
    | cons a as ih => intro i; simp [deliverySpecGo, ih]
  constructor
  · exact heq
  · rw [deliverInline, heq, hlen, List.length_take]
    exact Nat.min_eq_left hcap

end PrAgent
